import Mathlib

/-!
Shallow embedding of the prompt-classification and code-validation core of
the Blender-automation repository (files `src/prompt_processor.py` and
`src/code_validator.py`), together with theorems settling the frozen claims.

Python strings are modelled as `List Char`; Python `pat in s` substring
tests as `containsSub`; Python numeric values arising in measurement
conversion as exact rationals `ℚ` (the float arithmetic of the source
coincides with the exact values on every quantity the claims mention).
-/

namespace PyStr

/-- Python's substring test `pat in s` on strings. -/
def containsSub (pat : List Char) : List Char → Bool
  | [] => pat.isEmpty
  | s@(_ :: t) => pat.isPrefixOf s || containsSub pat t

theorem containsSub_iff (pat s : List Char) :
    containsSub pat s = true ↔ pat <:+: s := by
  induction s with
  | nil =>
    simp [containsSub, List.isEmpty_iff, List.infix_nil]
  | cons c t ih =>
    simp only [containsSub, Bool.or_eq_true, List.isPrefixOf_iff_prefix, ih,
      List.infix_cons_iff]

/-- Python's `str.lower()` (ASCII-adequate model). -/
def lowerStr (s : List Char) : List Char := s.map Char.toLower

/-- Python's `s.split('\n')`. -/
def splitLines : List Char → List (List Char)
  | [] => [[]]
  | c :: t =>
    if c = '\n' then [] :: splitLines t
    else
      match splitLines t with
      | [] => [[c]]
      | l :: ls => (c :: l) :: ls

/-- Python's `'\n'.join(lines)`. -/
def joinLines : List (List Char) → List Char
  | [] => []
  | [l] => l
  | l :: l2 :: ls => l ++ '\n' :: joinLines (l2 :: ls)

theorem splitLines_ne_nil (s : List Char) : splitLines s ≠ [] := by
  cases s with
  | nil => simp [splitLines]
  | cons c t =>
    simp only [splitLines]
    split
    · simp
    · split <;> simp

theorem joinLines_splitLines (s : List Char) :
    joinLines (splitLines s) = s := by
  induction s with
  | nil => rfl
  | cons c t ih =>
    simp only [splitLines]
    split
    · rename_i hc
      subst hc
      cases h : splitLines t with
      | nil => exact absurd h (splitLines_ne_nil t)
      | cons l ls =>
        rw [h] at ih
        simp only [joinLines]
        rw [← ih]
        simp
    · cases h : splitLines t with
      | nil => exact absurd h (splitLines_ne_nil t)
      | cons l ls =>
        rw [h] at ih
        cases ls with
        | nil => simpa [joinLines] using congrArg (c :: ·) ih
        | cons l2 ls2 => simpa [joinLines] using congrArg (c :: ·) ih

/-- Every line of a line list is an infix of their '\n'-join. -/
theorem infix_joinLines_of_mem {l : List Char} {ls : List (List Char)}
    (h : l ∈ ls) : l <:+: joinLines ls := by
  induction ls with
  | nil => cases h
  | cons a as ih =>
    rcases List.mem_cons.mp h with rfl | h2
    · cases as with
      | nil => exact List.infix_rfl
      | cons b bs =>
        exact (List.prefix_append l ('\n' :: joinLines (b :: bs))).isInfix
    · cases as with
      | nil => cases h2
      | cons b bs =>
        exact (List.infix_cons (ih h2)).trans
          (List.suffix_append a ('\n' :: joinLines (b :: bs))).isInfix

/-- A prefix of `a ++ b` is a prefix of `a`, or is `a` followed by a prefix
of `b`. -/
theorem prefix_append_cases {q a b : List Char} (h : q <+: a ++ b) :
    q <+: a ∨ ∃ r, q = a ++ r ∧ r <+: b := by
  induction a generalizing q with
  | nil => exact Or.inr ⟨q, rfl, by simpa using h⟩
  | cons x xs ih =>
    cases q with
    | nil => exact Or.inl List.nil_prefix
    | cons y ys =>
      rw [List.cons_append, List.cons_prefix_cons] at h
      obtain ⟨rfl, hys⟩ := h
      rcases ih hys with h1 | ⟨r, rfl, hr⟩
      · exact Or.inl (List.cons_prefix_cons.mpr ⟨rfl, h1⟩)
      · exact Or.inr ⟨r, rfl, hr⟩

/-- An infix of `a ++ b` is an infix of `a`, an infix of `b`, or splits
across the junction into a nonempty suffix of `a` and a nonempty prefix
of `b`. -/
theorem infix_append_cases {q a b : List Char} (h : q <:+: a ++ b) :
    q <:+: a ∨ q <:+: b ∨
      ∃ q1 q2, q = q1 ++ q2 ∧ q1 ≠ [] ∧ q2 ≠ [] ∧ q1 <:+ a ∧ q2 <+: b := by
  induction a with
  | nil => simp only [List.nil_append] at h; exact Or.inr (Or.inl h)
  | cons x xs ih =>
    rw [List.cons_append, List.infix_cons_iff, ← List.cons_append] at h
    rcases h with h | h
    · rcases prefix_append_cases h with h1 | ⟨r, rfl, hr⟩
      · exact Or.inl h1.isInfix
      · cases r with
        | nil => exact Or.inl (by simp)
        | cons z zs =>
          exact Or.inr (Or.inr ⟨x :: xs, z :: zs, rfl, by simp, by simp,
            List.suffix_rfl, hr⟩)
    · rcases ih h with h1 | h1 | ⟨q1, q2, h1, h2, h3, h4, h5⟩
      · exact Or.inl (List.infix_cons h1)
      · exact Or.inr (Or.inl h1)
      · exact Or.inr (Or.inr ⟨q1, q2, h1, h2, h3, h4.trans (List.suffix_cons x xs), h5⟩)

/-- A newline-free infix of a '\n'-join lies inside one of the lines. -/
theorem infix_line_of_infix_joinLines {q : List Char} {ls : List (List Char)}
    (hq : '\n' ∉ q) (h : q <:+: joinLines ls) :
    q = [] ∨ ∃ l ∈ ls, q <:+: l := by
  induction ls with
  | nil => left; exact List.infix_nil.mp h
  | cons a as ih =>
    cases as with
    | nil => right; exact ⟨a, by simp, h⟩
    | cons b bs =>
      rw [show joinLines (a :: b :: bs) = a ++ '\n' :: joinLines (b :: bs) from rfl] at h
      rcases infix_append_cases h with h1 | h1 | ⟨q1, q2, rfl, h2, h3, h4, h5⟩
      · right; exact ⟨a, by simp, h1⟩
      · rcases List.infix_cons_iff.mp h1 with h2 | h2
        · cases q with
          | nil => left; rfl
          | cons y ys =>
            rw [List.cons_prefix_cons] at h2
            obtain ⟨rfl, -⟩ := h2
            simp at hq
        · rcases ih h2 with h3 | ⟨l, hl, h3⟩
          · left; exact h3
          · right; exact ⟨l, by simp [hl], h3⟩
      · cases q2 with
        | nil => exact absurd rfl h3
        | cons y ys =>
          rw [List.cons_prefix_cons] at h5
          obtain ⟨rfl, -⟩ := h5
          simp at hq

end PyStr

namespace PromptProcessor

open PyStr

/-- `PromptProcessor.CATEGORIES` from `src/prompt_processor.py`, in dict
insertion order (modeling, material, scene, animation). -/
def CATEGORIES : List (List Char × List (List Char)) :=
  [("modeling".toList,
    ["create", "model", "mesh", "object", "shape", "geometry",
     "cube", "sphere", "cylinder", "cone", "torus", "plane",
     "extrude", "subdivide", "modifier", "boolean", "array",
     "character", "building", "furniture", "vehicle"].map String.toList),
   ("material".toList,
    ["material", "shader", "texture", "color", "metallic",
     "roughness", "glossy", "diffuse", "bsdf", "principled",
     "procedural", "node", "glass", "metal", "wood", "stone"].map String.toList),
   ("scene".toList,
    ["scene", "lighting", "light", "camera", "environment",
     "world", "hdri", "background", "sun", "lamp", "composition",
     "render", "setup", "studio"].map String.toList),
   ("animation".toList,
    ["animate", "animation", "keyframe", "motion", "movement",
     "rotate", "translate", "scale", "path", "timeline",
     "bounce", "spin", "move", "frame"].map String.toList)]

/-- One category's score:
`sum(1 for keyword in keywords if keyword in prompt_lower)`. -/
def categoryScore (kws : List (List Char)) (promptLower : List Char) : Nat :=
  (kws.filter (fun k => containsSub k promptLower)).length

/-- The `scores` dict of `_categorize_prompt`, as an association list in
insertion order. -/
def scoresList (p : List Char) : List (List Char × Nat) :=
  CATEGORIES.map (fun ck => (ck.1, categoryScore ck.2 (lowerStr p)))

/-- `max_score = max(scores.values())`. -/
def maxScore (p : List Char) : Nat :=
  ((scoresList p).map Prod.snd).foldl max 0

/-- `high_scoring = [cat for cat, score in scores.items() if score >= max_score * 0.7]`.
The Python comparison `score >= max_score * 0.7` on floats agrees with the
exact rational comparison `10 * score >= 7 * max_score` for every reachable
score (scores are bounded by the keyword-list lengths, all below 30, and
`10 * 0.7 == 7.0` and `20 * 0.7 == 14.0` hold exactly in binary64). -/
def highScoring (p : List Char) : List (List Char × Nat) :=
  (scoresList p).filter (fun cs => 10 * cs.2 ≥ 7 * maxScore p)

/-- Python `max(scores, key=scores.get)`: the first key in iteration order
attaining the maximal value (Python's `max` keeps the earlier element on
ties). -/
def argmaxFirst : List (List Char × Nat) → List Char
  | [] => []
  | x :: xs => (xs.foldl (fun acc cs => if acc.2 < cs.2 then cs else acc) x).1

/-- `PromptProcessor._categorize_prompt`. -/
def categorize_prompt (p : List Char) : List Char :=
  if maxScore p = 0 then "modeling".toList
  else if 1 < (highScoring p).length then "mixed".toList
  else argmaxFirst (scoresList p)

/-- The entities dict produced by `_extract_entities`: four keys, each an
ordered list (quantities pair an integer with a word). -/
structure Entities where
  objects : List (List Char)
  colors : List (List Char)
  materials : List (List Char)
  quantities : List (Nat × List Char)
deriving DecidableEq

/-- `sum(len(v) if isinstance(v, list) else 0 for v in entities.values())`:
all four values are lists. -/
def totalEntities (e : Entities) : Nat :=
  e.objects.length + e.colors.length + e.materials.length + e.quantities.length

/-- The `complex_keywords` list of `_assess_complexity`. -/
def complex_keywords : List (List Char) :=
  ["procedural", "animation", "rigging", "physics",
   "particle", "advanced", "realistic", "detailed"].map String.toList

/-- Python `str.split()` with no separator: split on whitespace runs,
dropping empty pieces. -/
def splitWsAux : List Char → List Char → List (List Char)
  | [], acc => if acc.isEmpty then [] else [acc.reverse]
  | c :: t, acc =>
    if c.isWhitespace then
      if acc.isEmpty then splitWsAux t [] else acc.reverse :: splitWsAux t []
    else splitWsAux t (c :: acc)

def splitWs (s : List Char) : List (List Char) := splitWsAux s []

/-- The integer score accumulated by `_assess_complexity` before bucketing:
word-count band, plus entity-count band, plus 2 if any advanced keyword
occurs as a substring of the lower-cased prompt. -/
def complexityScore (p : List Char) (e : Entities) : Nat :=
  (if 50 < (splitWs p).length then 3
   else if 20 < (splitWs p).length then 2 else 1)
  + (if 10 < totalEntities e then 3 else if 5 < totalEntities e then 2 else 1)
  + (if complex_keywords.any (fun k => containsSub k (lowerStr p)) then 2 else 0)

/-- `PromptProcessor._assess_complexity`. -/
def assess_complexity (p : List Char) (e : Entities) : List Char :=
  if complexityScore p e ≤ 3 then "simple".toList
  else if complexityScore p e ≤ 6 then "medium".toList
  else "complex".toList

/-- `PromptProcessor.UNITS`: unit token → meters-per-unit, in dict insertion
order (the regex alternation is built from these keys in this order).
Python float constants are modelled by the exact rationals they denote. -/
def UNITS : List (List Char × ℚ) :=
  [("cm".toList, 1/100), ("centimeter".toList, 1/100),
   ("mm".toList, 1/1000), ("millimeter".toList, 1/1000),
   ("m".toList, 1), ("meter".toList, 1),
   ("inch".toList, 254/10000), ("inches".toList, 254/10000),
   ("ft".toList, 3048/10000), ("foot".toList, 3048/10000),
   ("feet".toList, 3048/10000)]

/-- `self.UNITS.get(unit.lower(), 1.0)`. -/
def unitsGet (u : List Char) : ℚ :=
  match UNITS.find? (fun kv => kv.1 == u) with
  | some kv => kv.2
  | none => 1

/-- Maximal digit prefix (regex `\d*` / greedy `\d+`). -/
def spanDigits : List Char → List Char × List Char
  | [] => ([], [])
  | c :: t =>
    if c.isDigit then
      let dr := spanDigits t
      (c :: dr.1, dr.2)
    else ([], c :: t)

/-- Maximal whitespace prefix (regex `\s*`, greedy). -/
def spanWs : List Char → List Char × List Char
  | [] => ([], [])
  | c :: t =>
    if c.isWhitespace then
      let wr := spanWs t
      (c :: wr.1, wr.2)
    else ([], c :: t)

/-- Case-insensitive match of one lower-case unit token against the head of
the text (re.IGNORECASE); returns the matched original characters and the
rest. -/
def matchKeyCI : List Char → List Char → Option (List Char × List Char)
  | [], s => some ([], s)
  | _ :: _, [] => none
  | k :: ks, c :: cs =>
    if c.toLower = k then
      match matchKeyCI ks cs with
      | some mr => some (c :: mr.1, mr.2)
      | none => none
    else none

/-- The regex alternation over the `UNITS` keys: Python's `re` takes the
first alternative that matches at the current position. -/
def matchUnitAux : List (List Char × ℚ) → List Char → Option (List Char × List Char)
  | [], _ => none
  | kv :: rest, s =>
    match matchKeyCI kv.1 s with
    | some mr => some mr
    | none => matchUnitAux rest s

def matchUnit (s : List Char) : Option (List Char × List Char) :=
  matchUnitAux UNITS s

/-- One attempt of the measurement regex
`(\d+\.?\d*)\s*(cm|centimeter|mm|millimeter|m|meter|inch|inches|ft|foot|feet)`
at the current position. Greedy matching without backtracking is exact for
this pattern: no unit alternative begins with a digit, a dot, or
whitespace, so shrinking `\d+\.?\d*` or `\s*` can never turn a failure
into a success. Returns (group 1, group 2, rest). -/
def tryMatch (s : List Char) : Option (List Char × List Char × List Char) :=
  let dr := spanDigits s
  if dr.1.isEmpty then none
  else
    let dotr : List Char × List Char :=
      match dr.2 with
      | '.' :: t => (['.'], t)
      | _ => ([], dr.2)
    let dr2 := spanDigits dotr.2
    let wr := spanWs dr2.2
    match matchUnit wr.2 with
    | some ur => some (dr.1 ++ dotr.1 ++ dr2.1, ur.1, ur.2)
    | none => none

/-- `re.findall(pattern, prompt, re.IGNORECASE)`: left-to-right scan,
non-overlapping, resuming after each match. The fuel argument (initially
the text length) dominates the number of scan steps, since every step
consumes at least one character. -/
def findallAux : Nat → List Char → List (List Char × List Char)
  | 0, _ => []
  | _, [] => []
  | fuel + 1, s@(_ :: t) =>
    match tryMatch s with
    | some vur => (vur.1, vur.2.1) :: findallAux fuel vur.2.2
    | none => findallAux fuel t

def findallMeasurements (s : List Char) : List (List Char × List Char) :=
  findallAux s.length s

/-- Decimal value of a digit string. -/
def digitsVal (ds : List Char) : Nat :=
  ds.foldl (fun a c => 10 * a + (c.toNat - 48)) 0

/-- Python `float()` on the strings group 1 can produce
(digits, optionally a dot and digits), as an exact rational. -/
def pyFloat (s : List Char) : ℚ :=
  let dr := spanDigits s
  match dr.2 with
  | '.' :: t => (digitsVal dr.1 : ℚ) + (digitsVal t : ℚ) / ((10 : ℚ) ^ t.length)
  | _ => (digitsVal dr.1 : ℚ)

/-- One measurement record as built by `_extract_measurements`. -/
structure Measurement where
  original_value : ℚ
  original_unit : List Char
  blender_value : ℚ
  blender_unit : List Char
deriving DecidableEq

/-- `PromptProcessor._extract_measurements`. -/
def extract_measurements (p : List Char) : List Measurement :=
  (findallMeasurements p).map fun vu =>
    { original_value := pyFloat vu.1
      original_unit := vu.2
      blender_value := pyFloat vu.1 * unitsGet (lowerStr vu.2)
      blender_unit := "meters".toList }

end PromptProcessor

namespace CodeValidator

open PyStr

/-- A single-quote character, written by code point to keep source strings
printable. -/
def sq : List Char := [Char.ofNat 39]

/-- `CodeValidator.DANGEROUS_IMPORTS`. -/
def DANGEROUS_IMPORTS : List (List Char) :=
  ["os.system", "subprocess", "eval", "exec",
   "__import__", "compile", "open"].map String.toList

/-- `CodeValidator.REQUIRED_IMPORTS`. -/
def REQUIRED_IMPORTS : List (List Char) := ["bpy".toList]

/-- The `file_ops` list of `_check_security`. -/
def file_ops : List (List Char) :=
  ["open(", "write(", "read(", "remove(", "unlink("].map String.toList

/-- The `network_ops` list of `_check_security`. -/
def network_ops : List (List Char) :=
  ["urllib", "requests", "socket", "http"].map String.toList

def dangerousMsg (d : List Char) : List Char :=
  "Dangerous operation detected: ".toList ++ d

def fileOpMsg (op : List Char) : List Char :=
  "File operation detected: ".toList ++ op

def networkMsg (op : List Char) : List Char :=
  "Network operation detected: ".toList ++ op

/-- Python `line.index(pat)`: index of the first occurrence (used only when
the pattern occurs in the line). -/
def substrIdx (pat : List Char) : List Char → Nat
  | [] => 0
  | s@(_ :: t) => if pat.isPrefixOf s then 0 else substrIdx pat t + 1

/-- `CodeValidator._is_in_comment`: scans the lines of `code`; returns
False as soon as some line contains the pattern with no `#` on the line or
with the pattern's first index before the line's first `#`. -/
def is_in_comment (code pat : List Char) : Bool :=
  (splitLines code).all fun line =>
    !(containsSub pat line &&
      (!(line.contains '#') || decide (substrIdx pat line < substrIdx ['#'] line)))

/-- The `issues` list accumulated by `CodeValidator._check_security`:
dangerous substrings first, then file operations (with the line-comment
suppression), then network imports. -/
def security_issues (code : List Char) : List (List Char) :=
  (DANGEROUS_IMPORTS.filterMap fun d =>
    if containsSub d code then some (dangerousMsg d) else none)
  ++ (file_ops.filterMap fun op =>
    if containsSub op code then
      if !(is_in_comment code op) then some (fileOpMsg op) else none
    else none)
  ++ (network_ops.filterMap fun op =>
    if containsSub ("import ".toList ++ op) code
        || containsSub ("from ".toList ++ op) code
    then some (networkMsg op) else none)

/-- `CodeValidator._check_security`: `(is_safe, issues)`. -/
def security_check (code : List Char) : Bool × List (List Char) :=
  ((security_issues code).isEmpty, security_issues code)

/-- Python `str.count` (non-overlapping, left to right). The fuel argument
(initially the text length) dominates the number of scan steps. -/
def countSubAux (pat : List Char) : Nat → List Char → Nat
  | 0, _ => 0
  | _, [] => 0
  | fuel + 1, s@(_ :: t) =>
    if pat.isPrefixOf s then 1 + countSubAux pat fuel (s.drop pat.length)
    else countSubAux pat fuel t

def countSub (pat s : List Char) : Nat := countSubAux pat s.length s

/-- `CodeValidator._check_imports` (warnings only). -/
def imports_check (code : List Char) : List (List Char) :=
  (REQUIRED_IMPORTS.filterMap fun req =>
    if !(containsSub ("import ".toList ++ req) code)
        && !(containsSub ("from ".toList ++ req) code)
    then some ("Missing recommended import: ".toList ++ req) else none)
  ++ (if containsSub "math".toList (lowerStr code)
        && !(containsSub "import math".toList code)
      then ["Code mentions ".toList ++ sq ++ "math".toList ++ sq
            ++ " but doesn".toList ++ sq ++ "t import math module".toList]
      else [])
  ++ (if containsSub "vector".toList (lowerStr code)
        && !(containsSub "from mathutils import".toList code)
      then ["Code mentions ".toList ++ sq ++ "vector".toList ++ sq
            ++ " but doesn".toList ++ sq ++ "t import from mathutils".toList]
      else [])

/-- `CodeValidator._check_blender_api` (warnings only). -/
def blender_api_check (code : List Char) : List (List Char) :=
  (if !(["bpy.ops.object.select_all".toList, "bpy.ops.object.delete".toList].any
        fun pat => containsSub pat code)
   then ["Code doesn".toList ++ sq
         ++ "t clear existing objects - may cause conflicts".toList]
   else [])
  ++ (if (containsSub "bpy.ops.mesh".toList code
          || containsSub "bpy.ops.curve".toList code)
        && (!(containsSub ".name =".toList code)
          && !(containsSub "name=".toList code))
      then ["Objects created but not named - may be hard to reference".toList]
      else [])
  ++ (if (containsSub "bpy.ops.".toList code
          && !(containsSub "bpy.context.view_layer.objects.active".toList code))
        && 5 < countSub "bpy.ops.".toList code
      then ["Many operations without setting active object - may cause issues".toList]
      else [])
  ++ (if containsSub "bpy.data.objects.new".toList code
        && (!(containsSub "scene.collection.objects.link".toList code)
          && !(containsSub "bpy.context.collection.objects.link".toList code))
      then ["Objects created but not linked to scene collection".toList]
      else [])

/-- Outcome of the external `ast.parse(code)` call: success, a
`SyntaxError` carrying a line number and message, or another exception. -/
inductive ParseResult where
  | ok : ParseResult
  | syntaxErr : Nat → List Char → ParseResult
  | exn : List Char → ParseResult
deriving DecidableEq

/-- `CodeValidator._check_syntax`, with the parser outcome supplied as
data. -/
def syntax_check : ParseResult → Bool × List (List Char)
  | .ok => (true, [])
  | .syntaxErr n m =>
      (false, ["Syntax Error at line ".toList ++ (Nat.repr n).toList
               ++ ": ".toList ++ m])
  | .exn m => (false, ["Parsing Error: ".toList ++ m])

/-- The `(is_valid, errors, warnings)` triple returned by
`CodeValidator.validate`. -/
structure ValidationReport where
  is_valid : Bool
  errors : List (List Char)
  warnings : List (List Char)
deriving DecidableEq

/-- `CodeValidator.validate`, with the outcome of the external `ast.parse`
call on `code` passed in as `parse`. -/
def validate (parse : ParseResult) (code : List Char) : ValidationReport :=
  let sc := syntax_check parse
  if sc.1 = false then ⟨false, sc.2, []⟩
  else
    let sec := security_check code
    let errors := if sec.1 then [] else sec.2
    let warnings := imports_check code ++ blender_api_check code
    ⟨errors.isEmpty, errors, warnings⟩

/-- The `clear_code` snippet inserted by `auto_fix`. -/
def clear_code : List Char :=
  "# Clear existing objects\nbpy.ops.object.select_all(action=".toList
    ++ sq ++ "SELECT".toList ++ sq
    ++ ")\nbpy.ops.object.delete()\n\n".toList

/-- The `import_end` computation of `auto_fix`: one past the last line
starting with `import ` or `from `, else 0. -/
def importEnd (lines : List (List Char)) : Nat :=
  lines.enum.foldl
    (fun acc il =>
      if ("import ".toList).isPrefixOf il.2 || ("from ".toList).isPrefixOf il.2
      then il.1 + 1 else acc) 0

/-- `CodeValidator.auto_fix`. `importEnd` never exceeds the number of
lines, so `List.insertIdx` agrees with Python's `list.insert`. -/
def auto_fix (code : List Char) : List Char :=
  let fixed1 :=
    if !(containsSub "import bpy".toList code)
        && !(containsSub "from bpy".toList code)
    then "import bpy\n".toList ++ code else code
  if containsSub "bpy.ops.object.select_all".toList fixed1 then fixed1
  else
    let lines := splitLines fixed1
    joinLines (lines.insertIdx (importEnd lines) clear_code)

end CodeValidator

namespace Claims

open PyStr PromptProcessor CodeValidator

/-- C7: for every parse outcome and source text, the `is_valid` boolean
returned by `validate` is true iff the returned `errors` list is empty, on
both the syntax-failure early return and the normal return path. -/
theorem validate_is_valid_iff_no_errors (parse : ParseResult) (code : List Char) :
    (validate parse code).is_valid = true ↔ (validate parse code).errors = [] := by
  cases parse <;>
    simp [validate, syntax_check, security_check, List.isEmpty_iff]

/-- C2: when the parse of the candidate fails (for example on the text
`1 +`), `validate` returns `is_valid = false` with exactly one error and
zero warnings; neither the security scan nor the import/API checks
contribute anything, and on a `SyntaxError` the single error names the
line number and the message. -/
theorem validate_syntax_short_circuit (parse : ParseResult) (code : List Char)
    (h : parse ≠ ParseResult.ok) :
    (validate parse code).is_valid = false ∧
    (validate parse code).errors.length = 1 ∧
    (validate parse code).warnings = [] ∧
    ∀ n m, parse = ParseResult.syntaxErr n m →
      (validate parse code).errors =
        ["Syntax Error at line ".toList ++ (Nat.repr n).toList
         ++ ": ".toList ++ m] := by
  cases parse with
  | ok => exact absurd rfl h
  | syntaxErr n m =>
    refine ⟨by simp [validate, syntax_check], by simp [validate, syntax_check],
      by simp [validate, syntax_check], ?_⟩
    intro n2 m2 he
    obtain ⟨rfl, rfl⟩ := ParseResult.syntaxErr.inj he
    simp [validate, syntax_check]
  | exn m =>
    refine ⟨by simp [validate, syntax_check], by simp [validate, syntax_check],
      by simp [validate, syntax_check], ?_⟩
    intro n2 m2 he
    exact absurd he (by simp)

theorem validate_syntax_short_circuit_witness :
    (validate (ParseResult.syntaxErr 1 "invalid syntax".toList)
        "1 +".toList).is_valid = false ∧
    (validate (ParseResult.syntaxErr 1 "invalid syntax".toList)
        "1 +".toList).errors.length = 1 ∧
    (validate (ParseResult.syntaxErr 1 "invalid syntax".toList)
        "1 +".toList).warnings = [] ∧
    ∀ n m, ParseResult.syntaxErr 1 "invalid syntax".toList
        = ParseResult.syntaxErr n m →
      (validate (ParseResult.syntaxErr 1 "invalid syntax".toList)
          "1 +".toList).errors =
        ["Syntax Error at line ".toList ++ (Nat.repr n).toList
         ++ ": ".toList ++ m] :=
  validate_syntax_short_circuit
    (ParseResult.syntaxErr 1 "invalid syntax".toList) "1 +".toList (by decide)

/-- A dangerous substring occurring in the code puts its message in the
security issues. -/
theorem mem_security_issues_of_dangerous {d code : List Char}
    (hd : d ∈ DANGEROUS_IMPORTS) (h : containsSub d code = true) :
    dangerousMsg d ∈ security_issues code := by
  unfold security_issues
  exact List.mem_append.mpr (Or.inl (List.mem_append.mpr (Or.inl
    (List.mem_filterMap.mpr ⟨d, hd, by simp [h]⟩))))

/-- Any security issue makes `validate` fail on a parsable candidate, and
the issue appears among the returned errors. -/
theorem validate_ok_of_mem_security_issues {x code : List Char}
    (hmem : x ∈ security_issues code) :
    (validate ParseResult.ok code).is_valid = false ∧
    x ∈ (validate ParseResult.ok code).errors := by
  have hne : (security_issues code).isEmpty = false := by
    cases he : security_issues code with
    | nil => rw [he] at hmem; cases hmem
    | cons y ys => rfl
  refine ⟨?_, ?_⟩ <;>
    simp [validate, syntax_check, security_check, hne, hmem]

/-- C8: any parsable source containing the substring `os.system` (such as a
call `os.system("rm -rf /")`) validates to `is_valid = false`, with an
error naming the dangerous operation. -/
theorem os_system_rejected (code : List Char)
    (h : containsSub "os.system".toList code = true) :
    (validate ParseResult.ok code).is_valid = false ∧
    dangerousMsg "os.system".toList ∈ (validate ParseResult.ok code).errors :=
  validate_ok_of_mem_security_issues
    (mem_security_issues_of_dangerous (by decide) h)

theorem os_system_rejected_witness :
    (validate ParseResult.ok "os.system(\"rm -rf /\")".toList).is_valid = false ∧
    dangerousMsg "os.system".toList
      ∈ (validate ParseResult.ok "os.system(\"rm -rf /\")".toList).errors :=
  os_system_rejected "os.system(\"rm -rf /\")".toList (by decide)

/-- C9 (implicit): any parsable source containing the substring `open`
anywhere — inside a line comment or inside a longer identifier — triggers
the `Dangerous operation detected: open` entry of the dangerous-substring
scan, which applies no comment suppression, so `validate` returns
`is_valid = false` even when every `open(` occurrence sits inside a line
comment. -/
theorem open_substring_rejected (code : List Char)
    (h : containsSub "open".toList code = true) :
    dangerousMsg "open".toList ∈ (security_check code).2 ∧
    (validate ParseResult.ok code).is_valid = false := by
  have hmem : dangerousMsg "open".toList ∈ security_issues code :=
    mem_security_issues_of_dangerous (by decide) h
  exact ⟨by simpa [security_check] using hmem,
    (validate_ok_of_mem_security_issues hmem).1⟩

theorem open_substring_rejected_witness :
    is_in_comment "# open(path)\nx = 1".toList "open(".toList = true ∧
    (dangerousMsg "open".toList
        ∈ (security_check "# open(path)\nx = 1".toList).2 ∧
      (validate ParseResult.ok "# open(path)\nx = 1".toList).is_valid = false) :=
  ⟨by decide, open_substring_rejected "# open(path)\nx = 1".toList (by decide)⟩

end Claims

namespace Claims

open PyStr PromptProcessor CodeValidator

/-- C5: measurement extraction and conversion. `"5 meters"` yields a single
record with original value 5 and converted value 5; `"10cm"` one with
original value 10 and converted value 1/10; `"2.5 feet"` one with
converted value 0.762 = 2.5 × 0.3048; records appear in left-to-right
match order (illustrated on `"3 m 4 cm"`); and every record's target unit
is `meters`. -/
theorem extract_measurements_spec :
    ((extract_measurements "5 meters".toList).map
        fun r => (r.original_value, r.blender_value)) = [(5, 5)] ∧
    ((extract_measurements "10cm".toList).map
        fun r => (r.original_value, r.blender_value)) = [(10, 1/10)] ∧
    ((extract_measurements "2.5 feet".toList).map
        fun r => r.blender_value) = [762/1000] ∧
    ((extract_measurements "3 m 4 cm".toList).map
        fun r => (r.original_value, r.original_unit))
      = [(3, "m".toList), (4, "cm".toList)] ∧
    ∀ p, ((extract_measurements p).all
        fun r => r.blender_unit == "meters".toList) = true := by
  have h1 : findallMeasurements "5 meters".toList
      = [("5".toList, "m".toList)] := by decide
  have h2 : findallMeasurements "10cm".toList
      = [("10".toList, "cm".toList)] := by decide
  have h3 : findallMeasurements "2.5 feet".toList
      = [("2.5".toList, "feet".toList)] := by decide
  have h4 : findallMeasurements "3 m 4 cm".toList
      = [("3".toList, "m".toList), ("4".toList, "cm".toList)] := by decide
  have e1 : pyFloat "5".toList = ((5 : Nat) : ℚ) := rfl
  have e2 : pyFloat "10".toList = ((10 : Nat) : ℚ) := rfl
  have e3 : pyFloat "2.5".toList
      = ((2 : Nat) : ℚ) + ((5 : Nat) : ℚ) / (10 : ℚ) ^ 1 := rfl
  have e4 : pyFloat "3".toList = ((3 : Nat) : ℚ) := rfl
  have e5 : pyFloat "4".toList = ((4 : Nat) : ℚ) := rfl
  have u1 : unitsGet (lowerStr "m".toList) = 1 := rfl
  have u2 : unitsGet (lowerStr "cm".toList) = 1 / 100 := rfl
  have u3 : unitsGet (lowerStr "feet".toList) = 3048 / 10000 := rfl
  refine ⟨?_, ?_, ?_, ?_, fun p => ?_⟩
  · simp only [extract_measurements, h1, List.map_cons, List.map_nil, e1, u1]
    norm_num
  · simp only [extract_measurements, h2, List.map_cons, List.map_nil, e2, u2]
    norm_num
  · simp only [extract_measurements, h3, List.map_cons, List.map_nil, e3, u3]
    norm_num
  · simp only [extract_measurements, h4, List.map_cons, List.map_nil, e4, e5]
    norm_num
  · simp only [extract_measurements, List.all_eq_true, List.mem_map]
    rintro r ⟨vu, hvu, rfl⟩
    rfl

/-- `foldl max 0` over a list of zeros is zero. -/
theorem foldl_max_eq_zero {l : List Nat} (h : ∀ x ∈ l, x = 0) :
    l.foldl max 0 = 0 := by
  induction l with
  | nil => rfl
  | cons x xs ih =>
    rw [List.foldl_cons, h x (List.mem_cons_self x xs), Nat.max_self]
    exact ih fun y hy => h y (List.mem_cons_of_mem x hy)

/-- C6: a prompt in which no keyword of any of the four category keyword
sets occurs as a case-insensitive substring has `max_score = 0` and is
categorized as `modeling`; moreover the returned category is never the
empty string. -/
theorem categorize_default_modeling (p : List Char)
    (h : ∀ ck ∈ CATEGORIES, ∀ k ∈ ck.2, containsSub k (lowerStr p) = false) :
    categorize_prompt p = "modeling".toList ∧
    ∀ q, categorize_prompt q ≠ [] := by
  have hsc : ∀ ck ∈ CATEGORIES, categoryScore ck.2 (lowerStr p) = 0 := by
    intro ck hck
    unfold categoryScore
    rw [List.length_eq_zero, List.filter_eq_nil_iff]
    intro k hk
    simp [h ck hck k hk]
  have hmax : maxScore p = 0 := by
    unfold maxScore
    refine foldl_max_eq_zero fun x hx => ?_
    rcases List.mem_map.mp hx with ⟨cs, hcs, rfl⟩
    rcases List.mem_map.mp hcs with ⟨ck, hck, rfl⟩
    exact hsc ck hck
  refine ⟨by simp [categorize_prompt, hmax], fun q => ?_⟩
  unfold categorize_prompt
  split
  · decide
  · split
    · decide
    · simp only [scoresList, CATEGORIES, List.map_cons, List.map_nil,
        argmaxFirst, List.foldl_cons, List.foldl_nil]
      split_ifs <;> simp

theorem categorize_default_modeling_witness :
    categorize_prompt "xyz".toList = "modeling".toList ∧
    ∀ q, categorize_prompt q ≠ [] :=
  categorize_default_modeling "xyz".toList (by decide)

/-- C10 (implicit): for every prompt containing none of the eight advanced
keywords as a case-insensitive substring, the complexity score is at most
6 (word-count band at most 3 plus entity-count band at most 3), so the
reported complexity is never `complex`. -/
theorem no_advanced_keyword_not_complex (p : List Char) (e : Entities)
    (h : ∀ k ∈ complex_keywords, containsSub k (lowerStr p) = false) :
    complexityScore p e ≤ 6 ∧ assess_complexity p e ≠ "complex".toList := by
  have hadv : (complex_keywords.any fun k => containsSub k (lowerStr p)) = false := by
    rw [List.any_eq_false]
    intro k hk
    simp [h k hk]
  have hs : complexityScore p e ≤ 6 := by
    unfold complexityScore
    simp only [hadv, Bool.false_eq_true, if_false]
    split_ifs <;> omega
  refine ⟨hs, fun he => ?_⟩
  unfold assess_complexity at he
  by_cases h1 : complexityScore p e ≤ 3
  · rw [if_pos h1] at he
    exact absurd he (by decide)
  · rw [if_neg h1] at he
    by_cases h6 : complexityScore p e ≤ 6
    · rw [if_pos h6] at he
      exact absurd he (by decide)
    · omega

theorem no_advanced_keyword_not_complex_witness :
    complexityScore "make a box".toList ⟨[], [], [], []⟩ ≤ 6 ∧
    assess_complexity "make a box".toList ⟨[], [], [], []⟩ ≠ "complex".toList :=
  no_advanced_keyword_not_complex "make a box".toList ⟨[], [], [], []⟩ (by decide)

end Claims

namespace Claims

open PyStr PromptProcessor CodeValidator

/-- `_is_in_comment` returns true iff every line containing the pattern has
a `#` and the pattern's first occurrence is not before the first `#`. -/
theorem is_in_comment_iff (code pat : List Char) :
    is_in_comment code pat = true ↔
      ∀ line ∈ splitLines code, containsSub pat line = true →
        line.contains '#' = true ∧
          ¬ (substrIdx pat line < substrIdx ['#'] line) := by
  unfold is_in_comment
  rw [List.all_eq_true]
  constructor
  · intro h line hl hc
    have h2 := h line hl
    simp only [hc, Bool.true_and, Bool.not_or, Bool.not_eq_eq_eq_not,
      Bool.not_true, Bool.and_eq_true, Bool.not_eq_false,
      decide_eq_false_iff_not] at h2
    exact h2
  · intro h line hl
    by_cases hc : containsSub pat line = true
    · have h2 := h line hl hc
      have hmem : '#' ∈ line := List.elem_iff.mp h2.1
      simp [hc, h2.2, hmem]
    · simp [Bool.not_eq_true] at hc
      simp [hc]

theorem fileOpMsg_ne_dangerousMsg :
    ∀ op ∈ file_ops, ∀ d ∈ DANGEROUS_IMPORTS, fileOpMsg op ≠ dangerousMsg d := by
  decide

theorem fileOpMsg_ne_networkMsg :
    ∀ op ∈ file_ops, ∀ n ∈ network_ops, fileOpMsg op ≠ networkMsg n := by
  decide

/-- Membership of a file-operation message in the file-operation segment of
the security issues is equivalent to the source's two conditions. -/
theorem mem_fileop_segment_iff (code op : List Char) (hop : op ∈ file_ops) :
    fileOpMsg op ∈ (file_ops.filterMap fun o =>
        if containsSub o code then
          if !(is_in_comment code o) then some (fileOpMsg o) else none
        else none)
      ↔ containsSub op code = true ∧ is_in_comment code op = false := by
  constructor
  · intro h
    rcases List.mem_filterMap.mp h with ⟨o, ho, heq⟩
    split at heq
    · split at heq
      · obtain rfl : o = op :=
          List.append_cancel_left (Option.some.inj heq)
        rename_i hc hn
        exact ⟨hc, by simpa using hn⟩
      · cases heq
    · cases heq
  · rintro ⟨hc, hn⟩
    exact List.mem_filterMap.mpr ⟨op, hop, by simp [hc, hn]⟩

/-- C3: for every source text and file-operation substring, the security
scan emits no `File operation detected` error for that substring when on
every line containing it the substring's first occurrence lies after a `#`
on that line; if the substring occurs on some line before any `#` (or on a
line with no `#`), the scan emits the error. -/
theorem fileop_comment_suppression (code op : List Char) (hop : op ∈ file_ops) :
    ((∀ line ∈ splitLines code, containsSub op line = true →
        line.contains '#' = true ∧ substrIdx ['#'] line < substrIdx op line) →
      fileOpMsg op ∉ security_issues code) ∧
    ((∃ line ∈ splitLines code, containsSub op line = true ∧
        (line.contains '#' = false ∨ substrIdx op line < substrIdx ['#'] line)) →
      fileOpMsg op ∈ security_issues code) := by
  constructor
  · intro hall hmem
    unfold security_issues at hmem
    rcases List.mem_append.mp hmem with h1 | h2
    · rcases List.mem_append.mp h1 with hA | hF
      · rcases List.mem_filterMap.mp hA with ⟨d, hd, heq⟩
        split at heq
        · exact fileOpMsg_ne_dangerousMsg op hop d hd (Option.some.inj heq).symm
        · cases heq
      · have hco := (mem_fileop_segment_iff code op hop).mp hF
        have hic : is_in_comment code op = true := by
          rw [is_in_comment_iff]
          intro line hl hc
          obtain ⟨hh, hlt⟩ := hall line hl hc
          exact ⟨hh, by omega⟩
        rw [hco.2] at hic
        cases hic
    · rcases List.mem_filterMap.mp h2 with ⟨n, hn, heq⟩
      split at heq
      · exact fileOpMsg_ne_networkMsg op hop n hn (Option.some.inj heq).symm
      · cases heq
  · rintro ⟨line, hline, hcl, hbad⟩
    have hcc : containsSub op code = true := by
      rw [containsSub_iff] at hcl ⊢
      refine hcl.trans ?_
      have h3 := infix_joinLines_of_mem hline
      rwa [joinLines_splitLines] at h3
    have hic : is_in_comment code op = false := by
      unfold is_in_comment
      rw [List.all_eq_false]
      refine ⟨line, hline, ?_⟩
      rcases hbad with hb | hb
      · simp only [hcl, Bool.true_and, Bool.not_eq_true, Bool.not_or,
          Bool.and_eq_false_imp]
        intro hmem
        simp only [Bool.not_not] at hmem
        rw [hb] at hmem
        cases hmem
      · simp [hcl, hb]
    unfold security_issues
    exact List.mem_append.mpr (Or.inl (List.mem_append.mpr (Or.inr
      ((mem_fileop_segment_iff code op hop).mpr ⟨hcc, hic⟩))))

theorem fileop_comment_suppression_witness :
    (("open(".toList ∈ file_ops) ∧
      fileOpMsg "open(".toList ∈ security_issues "x = open(f)".toList) ∧
    fileOpMsg "write(".toList ∉ security_issues "# write(f)".toList :=
  ⟨⟨by decide,
    (fileop_comment_suppression "x = open(f)".toList "open(".toList
        (by decide)).2 (by decide)⟩,
   (fileop_comment_suppression "# write(f)".toList "write(".toList
       (by decide)).1 (by decide)⟩

end Claims

namespace Claims

open PyStr PromptProcessor CodeValidator

/-- The enumFrom-fold computing `import_end` never exceeds the offset plus
the number of remaining lines. -/
theorem foldl_enumFrom_le (f : List Char → Bool) (lines : List (List Char)) :
    ∀ (n acc : Nat), acc ≤ n + lines.length →
      ((lines.enumFrom n).foldl
          (fun a il => if f il.2 then il.1 + 1 else a) acc)
        ≤ n + lines.length := by
  induction lines with
  | nil => intro n acc h; simpa using h
  | cons x xs ih =>
    intro n acc h
    simp only [List.enumFrom, List.foldl_cons, List.length_cons]
    split
    · have h2 := ih (n + 1) (n + 1) (by omega)
      omega
    · have h2 := ih (n + 1) acc (by simp at h ⊢; omega)
      omega

theorem importEnd_le (lines : List (List Char)) :
    importEnd lines ≤ lines.length := by
  unfold importEnd
  have h := foldl_enumFrom_le
    (fun l => ("import ".toList).isPrefixOf l || ("from ".toList).isPrefixOf l)
    lines 0 0 (by simp)
  simpa [List.enum] using h

/-- A newline-free infix of a text survives splitting the text into lines,
inserting a new line anywhere, and rejoining. -/
theorem infix_joinLines_insertIdx {q t1 x : List Char} {n : Nat}
    (hn : n ≤ (splitLines t1).length) (hq : '\n' ∉ q) (h : q <:+: t1) :
    q <:+: joinLines ((splitLines t1).insertIdx n x) := by
  have h0 : q <:+: joinLines (splitLines t1) := by
    rw [joinLines_splitLines]
    exact h
  rcases infix_line_of_infix_joinLines hq h0 with rfl | ⟨l, hl, hql⟩
  · exact List.nil_infix
  · exact hql.trans
      (infix_joinLines_of_mem ((List.mem_insertIdx hn).mpr (Or.inr hl)))

/-- After the clearing-snippet insertion, newline-free substrings of the
input survive and the snippet (hence the select_all call) is present. -/
theorem auto_fix_insert_contains (t1 : List Char) :
    (∀ q, '\n' ∉ q → containsSub q t1 = true →
      containsSub q (joinLines ((splitLines t1).insertIdx
        (importEnd (splitLines t1)) clear_code)) = true) ∧
    containsSub "bpy.ops.object.select_all".toList
      (joinLines ((splitLines t1).insertIdx
        (importEnd (splitLines t1)) clear_code)) = true := by
  constructor
  · intro q hq hc
    rw [containsSub_iff] at hc ⊢
    exact infix_joinLines_insertIdx (importEnd_le _) hq hc
  · rw [containsSub_iff]
    exact ((containsSub_iff _ _).mp (by decide)).trans
      (infix_joinLines_of_mem
        ((List.mem_insertIdx (importEnd_le _)).mpr (Or.inl rfl)))

/-- The output of `auto_fix` always contains one of the `bpy`-import
markers and the scene-clearing call. -/
theorem auto_fix_contains (s : List Char) :
    (containsSub "import bpy".toList (auto_fix s) = true ∨
      containsSub "from bpy".toList (auto_fix s) = true) ∧
    containsSub "bpy.ops.object.select_all".toList (auto_fix s) = true := by
  unfold auto_fix
  by_cases h1 : (!containsSub "import bpy".toList s
      && !containsSub "from bpy".toList s) = true
  · rw [if_pos h1]
    have himp : containsSub "import bpy".toList
        ("import bpy\n".toList ++ s) = true := by
      rw [containsSub_iff]
      have e : "import bpy\n".toList = "import bpy".toList ++ ['\n'] := by
        decide
      rw [e, List.append_assoc]
      exact (List.prefix_append _ _).isInfix
    by_cases h2 : containsSub "bpy.ops.object.select_all".toList
        ("import bpy\n".toList ++ s) = true
    · rw [if_pos h2]
      exact ⟨Or.inl himp, h2⟩
    · rw [if_neg h2]
      exact ⟨Or.inl ((auto_fix_insert_contains _).1 _ (by decide) himp),
        (auto_fix_insert_contains _).2⟩
  · rw [if_neg h1]
    have hor : containsSub "import bpy".toList s = true ∨
        containsSub "from bpy".toList s = true := by
      cases hc1 : containsSub "import bpy".toList s with
      | true => exact Or.inl rfl
      | false =>
        cases hc2 : containsSub "from bpy".toList s with
        | true => exact Or.inr rfl
        | false => exact absurd (by rw [hc1, hc2]; rfl) h1
    by_cases h2 : containsSub "bpy.ops.object.select_all".toList s = true
    · rw [if_pos h2]
      exact ⟨hor, h2⟩
    · rw [if_neg h2]
      refine ⟨?_, (auto_fix_insert_contains _).2⟩
      rcases hor with h | h
      · exact Or.inl ((auto_fix_insert_contains _).1 _ (by decide) h)
      · exact Or.inr ((auto_fix_insert_contains _).1 _ (by decide) h)

/-- `auto_fix` leaves alone any text that already contains a `bpy` import
marker and the select_all call. -/
theorem auto_fix_fixed {r : List Char}
    (h1 : containsSub "import bpy".toList r = true ∨
      containsSub "from bpy".toList r = true)
    (h2 : containsSub "bpy.ops.object.select_all".toList r = true) :
    auto_fix r = r := by
  have hfix : (if (!containsSub "import bpy".toList r
      && !containsSub "from bpy".toList r) = true
      then "import bpy\n".toList ++ r else r) = r := by
    rcases h1 with h | h <;>
      · simp only [h, Bool.not_true, Bool.false_and, Bool.and_false]
        simp
  unfold auto_fix
  rw [hfix, if_pos h2]

/-- C4: for every source text in which the mandatory `import bpy` line and
the scene-clearing call are present, `auto_fix` returns the text unchanged
(duplicating neither insertion); and `auto_fix` is idempotent on every
source text. -/
theorem auto_fix_idempotent (s : List Char) :
    (containsSub "import bpy".toList s = true ∧
      containsSub "bpy.ops.object.select_all".toList s = true →
        auto_fix s = s) ∧
    auto_fix (auto_fix s) = auto_fix s :=
  ⟨fun h => auto_fix_fixed (Or.inl h.1) h.2,
   auto_fix_fixed (auto_fix_contains s).1 (auto_fix_contains s).2⟩

theorem auto_fix_idempotent_witness :
    auto_fix "import bpy\nbpy.ops.object.select_all".toList
      = "import bpy\nbpy.ops.object.select_all".toList :=
  (auto_fix_idempotent "import bpy\nbpy.ops.object.select_all".toList).1
    ⟨by decide, by decide⟩

end Claims

namespace Claims

open PyStr PromptProcessor CodeValidator

/-- The scores association list always has the four-category shape, in dict
insertion order. -/
theorem scoresList_quad (p : List Char) :
    ∃ a b c d, scoresList p =
      [("modeling".toList, a), ("material".toList, b),
       ("scene".toList, c), ("animation".toList, d)] :=
  ⟨_, _, _, _, rfl⟩

set_option maxHeartbeats 1000000 in
/-- When the 0.7-threshold filter over a four-entry scores list keeps
exactly one entry, `max(scores, key=scores.get)` returns that entry's key,
and the kept score is the maximum. -/
theorem filter_singleton_argmax (n1 n2 n3 n4 c0 : List Char)
    (a b c d s0 : Nat)
    (h : 0 < max (max (max (max 0 a) b) c) d)
    (hone : [(n1, a), (n2, b), (n3, c), (n4, d)].filter
        (fun cs => 10 * cs.2 ≥ 7 * max (max (max (max 0 a) b) c) d)
      = [(c0, s0)]) :
    argmaxFirst [(n1, a), (n2, b), (n3, c), (n4, d)] = c0 ∧
      s0 = max (max (max (max 0 a) b) c) d := by
  simp only [List.filter_cons, List.filter_nil, ge_iff_le,
    decide_eq_true_eq] at hone
  simp only [argmaxFirst, List.foldl_cons, List.foldl_nil]
  split_ifs at hone ⊢ <;>
    simp only [List.cons.injEq, Prod.mk.injEq, and_true, true_and,
      List.cons_ne_nil, and_false, false_and, List.nil_eq] at hone <;>
    obtain ⟨rfl, rfl⟩ := hone <;>
    first
      | exact ⟨rfl, by omega⟩
      | (exfalso; omega)

/-- C1: for every prompt with `max_score > 0`, if more than one category
scores at least 0.7 × max_score the classifier returns `mixed`; if exactly
one category qualifies, the classifier returns that category, which is the
category attaining the maximum score (a tie at max_score would put both
tied categories in the qualifying set, so the single-qualifier case has a
unique maximum; `max(scores, key=scores.get)` keeps the first category in
iteration order — modeling, material, scene, animation — on ties). -/
theorem categorize_mixed_and_unique_max (p : List Char) (h : 0 < maxScore p) :
    (1 < (highScoring p).length → categorize_prompt p = "mixed".toList) ∧
    (∀ c0 s0, highScoring p = [(c0, s0)] →
      categorize_prompt p = c0 ∧ s0 = maxScore p) := by
  obtain ⟨a, b, c, d, hq⟩ := scoresList_quad p
  have hmax : maxScore p = max (max (max (max 0 a) b) c) d := by
    rw [maxScore, hq]
    rfl
  have hhs : highScoring p =
      [("modeling".toList, a), ("material".toList, b),
       ("scene".toList, c), ("animation".toList, d)].filter
        (fun cs => 10 * cs.2 ≥ 7 * maxScore p) := by
    rw [highScoring, hq]
  have hcat : categorize_prompt p = if 1 < (highScoring p).length
      then "mixed".toList else argmaxFirst (scoresList p) := by
    rw [categorize_prompt, if_neg (by omega)]
  constructor
  · intro hlen
    rw [hcat, if_pos hlen]
  · intro c0 s0 hone
    have hlen : ¬ (1 < (highScoring p).length) := by rw [hone]; simp
    rw [hcat, if_neg hlen, hq]
    rw [hhs, hmax] at hone
    rw [hmax]
    rw [hmax] at h
    exact filter_singleton_argmax _ _ _ _ _ _ _ _ _ _ h hone

theorem categorize_mixed_and_unique_max_witness :
    (0 < maxScore "create a cube".toList ∧
      categorize_prompt "create a cube".toList = "modeling".toList ∧
      2 = maxScore "create a cube".toList) ∧
    (0 < maxScore "animate a cube".toList ∧
      1 < (highScoring "animate a cube".toList).length ∧
      categorize_prompt "animate a cube".toList = "mixed".toList) :=
  ⟨⟨by decide,
    (categorize_mixed_and_unique_max "create a cube".toList (by decide)).2
      "modeling".toList 2 (by decide)⟩,
   ⟨by decide, by decide,
    (categorize_mixed_and_unique_max "animate a cube".toList (by decide)).1
      (by decide)⟩⟩

end Claims
